import Mathlib

/-!
# go-mixins/config: reloadable configuration watcher

A shallow embedding of `config.go` (`New`, `Config.Close`, `Config.read`) as
explicit state passing.  The caller's callbacks, the file system and the Go
runtime are made explicit:

* a byte is a natural number, a file content a list of bytes;
* `sha256` is a parameter `H : List Byte → D`, `cfg.hash` holds the bytes
  written into the stored `hash.Hash` (so `Sum(nil)` is `H` of them);
* the decoder is a tree of `Read` calls on the `io.TeeReader`, ended by the
  returned error and the update it made to the caller's value;
* every action the program takes that a caller can observe is appended to a
  trace, in program order.
-/

namespace config

/-- One byte of the file. -/
abbrev Byte := Nat

/-- A non-nil Go `error`: a message, or `errors.Wrap(cause, msg)`. -/
inductive GoError where
  | msg (text : String)
  | wrap (cause : GoError) (text : String)
  deriving DecidableEq, Repr

/-- Go's `error` interface value: `none` is `nil`. -/
abbrev Error := Option GoError

/-- `errors.Wrap(err, text)`: nil stays nil, anything else is wrapped. -/
def Wrap (err : Error) (text : String) : Error :=
  match err with
  | none => none
  | some e => some (GoError.wrap e text)

/-- State of a Go channel that is only ever closed (`stop`). -/
inductive Chan where
  | active
  | closed
  deriving DecidableEq, Repr

/-- Run-time panics of the Go code. -/
inductive Panic where
  | closeOfClosedChannel
  | nilDereference
  deriving DecidableEq, Repr

/-- The builtin `close(ch)` on a non-nil channel. -/
def closeChan : Chan → Except Panic Chan
  | Chan.active => Except.ok Chan.closed
  | Chan.closed => Except.error Panic.closeOfClosedChannel

/-- The `fsnotify.Watcher` as the loop sees it: how many events wait on its
`Events` channel, and whether `Close` was called on it. -/
structure Watcher where
  Events : Nat
  closed : Bool
  deriving DecidableEq, Repr

/-- The struct `Config`.  `forceReload` is never made nor used by the code and
is left out; `hash` is nil or the bytes written into the stored checksum. -/
structure Config where
  name : String
  stop : Chan
  hash : Option (List Byte)
  watcher : Option Watcher
  deriving DecidableEq, Repr

/-- What the program does, as a caller or the operating system can see it. -/
inductive Action where
  | readCall
  | decoderCall (bytes : List Byte) (err : Error)
  | onChangeCall (err : Error)
  | readySend (err : Error)
  | sleep
  | timeout
  | watcherClose
  | panic (p : Panic)
  deriving DecidableEq, Repr

/-- A caller-supplied `func(io.Reader) error` over caller state `σ`: it calls
`Read` with a buffer of `n` bytes and goes on with the bytes it got (none at
end of file), or returns an error after updating the caller's value. -/
inductive Decoder (σ : Type) where
  | ret (upd : σ → σ) (err : Error) : Decoder σ
  | read (n : Nat) (k : List Byte → Decoder σ) : Decoder σ

/-- Outcome of one decoder call on the tee reader. -/
structure Decoded (σ : Type) where
  bytes : List Byte
  upd : σ → σ
  err : Error

/-- Run the decoder on `io.TeeReader(fp, checksum)`: `bytes` is everything
that was read from the file and so written into `checksum`. -/
def Decoder.run {σ : Type} : Decoder σ → List Byte → Decoded σ
  | Decoder.ret upd err, _ => { bytes := [], upd := upd, err := err }
  | Decoder.read n k, rest =>
    let r := (k (rest.take n)).run (rest.drop n)
    { bytes := rest.take n ++ r.bytes, upd := r.upd, err := r.err }

/-- The program state: the shared `Config`, the `sync.Once` of `New`, the
caller's own state and the trace of actions so far. -/
structure Session (σ : Type) where
  cfg : Config
  once : Bool
  user : σ
  trace : List Action

/-- The method `Config.read`: `fp` is what `os.Open(cfg.name)` gives this time. -/
def read {σ D : Type} [DecidableEq D] (H : List Byte → D) (decoder : Decoder σ)
    (fp : Except GoError (List Byte)) (s : Session σ) : Bool × Error × Session σ :=
  match fp with
  | Except.error e =>
    (false, Wrap (some e) "opening file", { s with trace := s.trace ++ [Action.readCall] })
  | Except.ok content =>
    let r := decoder.run content
    let changed : Bool :=
      match s.cfg.hash with
      | none => true
      | some old => !(decide (H old = H r.bytes))
    (changed, r.err,
      { s with
        cfg := { s.cfg with hash := some r.bytes }
        user := r.upd s.user
        trace := s.trace ++ [Action.readCall, Action.decoderCall r.bytes r.err] })

/-- One pass of the loop body before the `select` (lines 51 to 56 of `New`). -/
def cycle {σ D : Type} [DecidableEq D] (H : List Byte → D) (decoder : Decoder σ)
    (onChange : Error → σ → σ) (fp : Except GoError (List Byte)) (s : Session σ) :
    Session σ :=
  match read H decoder fp s with
  | (changed, err, s1) =>
    if changed || err.isSome then
      let s2 : Session σ :=
        { s1 with user := onChange err s1.user
                  trace := s1.trace ++ [Action.onChangeCall err] }
      if s2.once then s2
      else { s2 with once := true, trace := s2.trace ++ [Action.readySend err] }
    else s1

/-- The three cases of the `select`. -/
inductive Wake where
  | stop
  | event
  | timeout
  deriving DecidableEq, Repr

/-- Which case of the `select` fires: a closed `stop` and a waiting event are
both ready at once and Go picks one of them (`preferStop`); with neither, the
thirty-second timer fires. -/
def selectCase (stop : Chan) (events : Nat) (preferStop : Bool) : Wake :=
  match stop, events with
  | Chan.closed, 0 => Wake.stop
  | Chan.closed, _ + 1 => if preferStop then Wake.stop else Wake.event
  | Chan.active, _ + 1 => Wake.event
  | Chan.active, 0 => Wake.timeout

/-- The method `Config.Close`. -/
def Config.Close (cfg : Config) : Except Panic Config :=
  match closeChan cfg.stop with
  | Except.ok c => Except.ok { cfg with stop := c }
  | Except.error p => Except.error p

/-- What happens around one pass of the loop: the result of `os.Open`, the
notification events that arrived before the `select` fires, whether the caller
called `Close` meanwhile, and the choice Go makes when two cases are ready. -/
structure Round where
  fp : Except GoError (List Byte)
  arrivals : Nat
  close : Bool
  preferStop : Bool

/-- The goroutine started by `New`, run over the given rounds.  It ends when
the `stop` case fires (the deferred `watcher.Close()` runs), when the process
panics, or when the rounds are used up (the loop is then still running). -/
def loop {σ D : Type} [DecidableEq D] (H : List Byte → D) (decoder : Decoder σ)
    (onChange : Error → σ → σ) : List Round → Session σ → Session σ
  | [], s => s
  | r :: rs, s =>
    let s1 := cycle H decoder onChange r.fp s
    match (if r.close then s1.cfg.Close else Except.ok s1.cfg) with
    | Except.error p => { s1 with trace := s1.trace ++ [Action.panic p] }
    | Except.ok c =>
      match c.watcher with
      | none => { s1 with cfg := c, trace := s1.trace ++ [Action.panic Panic.nilDereference] }
      | some w =>
        let pending := w.Events + r.arrivals
        match selectCase c.stop pending r.preferStop with
        | Wake.stop =>
          { s1 with
            cfg := { c with watcher := some { Events := pending, closed := true } }
            trace := s1.trace ++ [Action.watcherClose] }
        | Wake.event =>
          loop H decoder onChange rs
            { s1 with
              cfg := { c with watcher := some { Events := pending - 1, closed := w.closed } }
              trace := s1.trace ++ [Action.sleep] }
        | Wake.timeout =>
          loop H decoder onChange rs
            { s1 with
              cfg := { c with watcher := some { Events := pending, closed := w.closed } }
              trace := s1.trace ++ [Action.timeout] }

/-- Results of `fsnotify.NewWatcher()` and of `watcher.Add(name)`. -/
structure Setup where
  newWatcher : Error
  add : Error

/-- The value `New` receives from `ready`: the first one sent. -/
def firstReady : List Action → Option Error
  | [] => none
  | Action.readySend e :: _ => some e
  | _ :: t => firstReady t

/-- The state in which the goroutine of `New` starts. -/
def start {σ : Type} (name : String) (user : σ) : Session σ :=
  { cfg := { name := name, stop := Chan.active, hash := none,
             watcher := some { Events := 0, closed := false } }
    once := false
    user := user
    trace := [] }

/-- What `New` hands back: `res`, `err`, and the program state at that moment. -/
structure NewResult (σ : Type) where
  res : Config
  err : Error
  state : Session σ

/-- The function `New`, up to its return.  After a failed setup it returns at
once; otherwise the goroutine runs its first pass (`fp` is what `os.Open`
gives it) and `New` returns what it receives from `ready`.  `none` stands for
a `New` still blocked on `<-ready` after that pass. -/
def New {σ D : Type} [DecidableEq D] (H : List Byte → D) (name : String) (env : Setup)
    (fp : Except GoError (List Byte)) (decoder : Decoder σ) (onChange : Error → σ → σ)
    (user : σ) : Option (NewResult σ) :=
  let s0 := start name user
  match env.newWatcher with
  | some e =>
    let cfg : Config := { s0.cfg with watcher := none }
    some { res := cfg, err := Wrap (some e) "creating fsnotify watcher",
           state := { s0 with cfg := cfg } }
  | none =>
    match env.add with
    | some e =>
      some { res := s0.cfg, err := Wrap (some e) "adding filename to watcher", state := s0 }
    | none =>
      let s1 := cycle H decoder onChange fp s0
      match firstReady s1.trace with
      | some e => some { res := s1.cfg, err := e, state := s1 }
      | none => none

/-- Call `Close` `n` times in a row; a panic ends the sequence. -/
def closeN : Nat → Config → Except Panic Config
  | 0, cfg => Except.ok cfg
  | n + 1, cfg =>
    match cfg.Close with
    | Except.ok c => closeN n c
    | Except.error p => Except.error p

/-- Number of reload cycles (calls of `read`) in a trace. -/
def reloadCycles : List Action → Nat
  | [] => 0
  | Action.readCall :: t => reloadCycles t + 1
  | _ :: t => reloadCycles t

/-- Number of one-second sleeps (one per notification event received). -/
def sleeps : List Action → Nat
  | [] => 0
  | Action.sleep :: t => sleeps t + 1
  | _ :: t => sleeps t

/-- Number of times the thirty-second timer fired. -/
def timeouts : List Action → Nat
  | [] => 0
  | Action.timeout :: t => timeouts t + 1
  | _ :: t => timeouts t

/-- The reload cycles, one-second sleeps and timer wake-ups of a trace, in the
order in which they happened. -/
def turns : List Action → List Action
  | [] => []
  | Action.readCall :: t => Action.readCall :: turns t
  | Action.sleep :: t => Action.sleep :: turns t
  | Action.timeout :: t => Action.timeout :: turns t
  | _ :: t => turns t

/-- One sleep followed by one reload cycle for each of `n` events, and the
timer after the last of them. -/
def eventTurns : Nat → List Action
  | 0 => [Action.timeout]
  | n + 1 => Action.sleep :: Action.readCall :: eventTurns n

/-- A round in which no event arrives and `Close` is not called. -/
def quiet (fp : Except GoError (List Byte)) : Round :=
  { fp := fp, arrivals := 0, close := false, preferStop := false }

/-- Number of `onChange` calls in a trace. -/
def onChangeCalls : List Action → Nat
  | [] => 0
  | Action.onChangeCall _ :: t => onChangeCalls t + 1
  | _ :: t => onChangeCalls t

/-- Number of sends on `ready` in a trace. -/
def readySends : List Action → Nat
  | [] => 0
  | Action.readySend _ :: t => readySends t + 1
  | _ :: t => readySends t

/-- Number of decoder calls in a trace. -/
def decoderCalls : List Action → Nat
  | [] => 0
  | Action.decoderCall _ _ :: t => decoderCalls t + 1
  | _ :: t => decoderCalls t

/-! ## Concrete inputs used to evaluate the code -/

/-- A collision-free stand-in for `sha256` on concrete inputs. -/
def idHash : List Byte → List Byte := fun bs => bs

/-- A decoder that reads one buffer of 512 bytes and rejects whatever it got. -/
def rejecting : Decoder Unit :=
  Decoder.read 512 (fun _ => Decoder.ret (fun u => u) (some (GoError.msg "invalid character")))

/-- An `onChange` that leaves the caller's state alone. -/
def ignore {σ : Type} : Error → σ → σ := fun _ u => u

/-- A decoder of comma-separated user names (44 is the comma): it reads one
buffer of 512 bytes, fails on an empty file, and otherwise stores the names in
the caller's value. -/
def usersDecoder : Decoder (List (List Byte)) :=
  Decoder.read 512 (fun chunk =>
    if chunk.isEmpty then Decoder.ret (fun u => u) (some (GoError.msg "EOF"))
    else Decoder.ret (fun _ => chunk.splitOn 44) none)

/-- A decoder that reads a two-byte header and accepts without reading on. -/
def headerDecoder : Decoder Unit :=
  Decoder.read 2 (fun _ => Decoder.ret (fun u => u) none)

/-- The file `a,b`. -/
def twoUsers : List Byte := [97, 44, 98]

/-- The file `a,b,c`. -/
def threeUsers : List Byte := [97, 44, 98, 44, 99]

/-- A session whose first pass read a file the decoder rejects. -/
def invalidOnce : Session Unit :=
  cycle idHash rejecting ignore (Except.ok [123, 33]) (start "config.json" ())

/-- The same session after a second pass over the same rejected bytes. -/
def invalidTwice : Session Unit :=
  cycle idHash rejecting ignore (Except.ok [123, 33]) invalidOnce

/-- A session after its first pass over the file `a,b`. -/
def usersLoaded : Session (List (List Byte)) :=
  cycle idHash usersDecoder ignore (Except.ok twoUsers) (start "testcfg.json" [])

/-- The same session after the file was rewritten to `a,b,c`. -/
def usersReloaded : Session (List (List Byte)) :=
  cycle idHash usersDecoder ignore (Except.ok threeUsers) usersLoaded

/-- The goroutine of a fresh session over the file `a,b`, with two
notification events waiting when it first reaches the `select`, followed for
two more rounds in which nothing else happens. -/
def twoEventsPending : Session (List (List Byte)) :=
  loop idHash usersDecoder ignore
    [{ fp := Except.ok twoUsers, arrivals := 2, close := false, preferStop := false },
     quiet (Except.ok twoUsers), quiet (Except.ok twoUsers)]
    (start "testcfg.json" [])

/-! ## Helper lemmas -/

theorem decoderCalls_append (a b : List Action) :
    decoderCalls (a ++ b) = decoderCalls a + decoderCalls b := by
  induction a with
  | nil => simp [decoderCalls]
  | cons x t ih =>
    cases x <;> simp [decoderCalls, ih]
    omega

theorem onChangeCalls_append (a b : List Action) :
    onChangeCalls (a ++ b) = onChangeCalls a + onChangeCalls b := by
  induction a with
  | nil => simp [onChangeCalls]
  | cons x t ih =>
    cases x <;> simp [onChangeCalls, ih]
    omega

theorem readySends_append (a b : List Action) :
    readySends (a ++ b) = readySends a + readySends b := by
  induction a with
  | nil => simp [readySends]
  | cons x t ih =>
    cases x <;> simp [readySends, ih]
    omega

/-- The tee reader only ever sees a prefix of the file. -/
theorem run_bytes_prefix {σ : Type} (d : Decoder σ) :
    ∀ content : List Byte, (d.run content).bytes <+: content := by
  induction d with
  | ret upd err => intro content; simp [Decoder.run]
  | read n k ih =>
    intro content
    simp only [Decoder.run]
    obtain ⟨t, ht⟩ := ih (content.take n) (content.drop n)
    refine ⟨t, ?_⟩
    rw [List.append_assoc, ht, List.take_append_drop]

/-- A decoder that stops before the end of the file behaves the same on every
file that starts with the bytes it read. -/
theorem run_eq_of_early_stop {σ : Type} (d : Decoder σ) :
    ∀ a b : List Byte, (d.run a).bytes.length < a.length → (d.run a).bytes <+: b →
      d.run b = d.run a := by
  induction d with
  | ret upd err => intro a b _ _; simp [Decoder.run]
  | read n k ih =>
    intro a b hlen hpre
    simp only [Decoder.run] at hlen hpre ⊢
    have hn : n < a.length := by
      simp only [List.length_append, List.length_take] at hlen
      omega
    have htl : (a.take n).length = n := by
      rw [List.length_take]; omega
    obtain ⟨t, ht⟩ := hpre
    have hb1 : b.take n = a.take n := by
      rw [← ht, List.append_assoc, List.take_append_eq_append_take, htl]
      simp
    have hb2 : b.drop n = ((k (a.take n)).run (a.drop n)).bytes ++ t := by
      rw [← ht, List.append_assoc, List.drop_append_eq_append_drop, htl]
      simp
    have hrec : (k (a.take n)).run (b.drop n) = (k (a.take n)).run (a.drop n) := by
      apply ih (a.take n) (a.drop n) (b.drop n)
      · simp only [List.length_append, List.length_take, List.length_drop] at hlen ⊢
        omega
      · exact ⟨t, hb2.symm⟩
    rw [hb1, hrec]

/-! ## The method `read` -/

/-- C9: when the file opens, `read` returns changed exactly when no digest is
stored or the stored digest differs from the digest of the bytes the decoder
read (a prefix of the file), returns the decoder's error, and stores the new
digest whatever the decoder returned; a first read is always changed, a read
that consumes the same bytes as the one before is unchanged, and so is a read
of any file that starts with the bytes an early-stopping decoder consumed. -/
theorem read_opened_postcondition {σ D : Type} [DecidableEq D] (H : List Byte → D)
    (decoder : Decoder σ) (content : List Byte) (s : Session σ) :
    ((read H decoder (Except.ok content) s).1 = true ↔
        (s.cfg.hash = none ∨
          ∃ old, s.cfg.hash = some old ∧ H old ≠ H (decoder.run content).bytes)) ∧
    (decoder.run content).bytes <+: content ∧
    (read H decoder (Except.ok content) s).2.1 = (decoder.run content).err ∧
    (read H decoder (Except.ok content) s).2.2.cfg.hash = some (decoder.run content).bytes ∧
    (s.cfg.hash = none → (read H decoder (Except.ok content) s).1 = true) ∧
    (∀ next : List Byte, (decoder.run next).bytes = (decoder.run content).bytes →
      (read H decoder (Except.ok next) (read H decoder (Except.ok content) s).2.2).1 = false) ∧
    (∀ next : List Byte, (decoder.run content).bytes.length < content.length →
      (decoder.run content).bytes <+: next →
      (read H decoder (Except.ok next) (read H decoder (Except.ok content) s).2.2).1 = false) := by
  refine ⟨?_, run_bytes_prefix decoder content, rfl, rfl, ?_, ?_, ?_⟩
  · cases h : s.cfg.hash <;> simp [read, h]
  · intro h; simp [read, h]
  · intro next h; simp [read, h]
  · intro next h1 h2
    simp [read, run_eq_of_early_stop decoder content next h1 h2]

theorem read_opened_postcondition_witness :
    (headerDecoder.run [1, 2, 3]).bytes = [1, 2] ∧
    (read idHash headerDecoder (Except.ok [1, 2, 3]) (start "config.json" ())).1 = true ∧
    (read idHash headerDecoder (Except.ok [1, 2, 9, 9])
      (read idHash headerDecoder (Except.ok [1, 2, 3]) (start "config.json" ())).2.2).1 =
        false :=
  ⟨by rfl,
   (read_opened_postcondition idHash headerDecoder [1, 2, 3]
      (start "config.json" ())).2.2.2.2.1 rfl,
   (read_opened_postcondition idHash headerDecoder [1, 2, 3]
      (start "config.json" ())).2.2.2.2.2.2 [1, 2, 9, 9] (by decide) (by decide)⟩

/-- C10: when the open fails, `read` returns changed = false and the open
error wrapped with "opening file", never calls the decoder, leaves the caller's
value and the whole `Config` (the stored digest with it) as they were; a
session without a digest still has none and its next read that opens the file
reports changed. -/
theorem read_open_failure {σ D : Type} [DecidableEq D] (H : List Byte → D)
    (decoder : Decoder σ) (e : GoError) (s : Session σ) :
    (read H decoder (Except.error e) s).1 = false ∧
    (read H decoder (Except.error e) s).2.1 = some (GoError.wrap e "opening file") ∧
    (read H decoder (Except.error e) s).2.2.trace = s.trace ++ [Action.readCall] ∧
    decoderCalls (read H decoder (Except.error e) s).2.2.trace = decoderCalls s.trace ∧
    (read H decoder (Except.error e) s).2.2.user = s.user ∧
    (read H decoder (Except.error e) s).2.2.cfg = s.cfg ∧
    (s.cfg.hash = none →
      (read H decoder (Except.error e) s).2.2.cfg.hash = none ∧
      ∀ content : List Byte,
        (read H decoder (Except.ok content) (read H decoder (Except.error e) s).2.2).1 = true) := by
  refine ⟨rfl, rfl, rfl, ?_, rfl, rfl, ?_⟩
  · simp [read, decoderCalls_append, decoderCalls]
  · intro h
    refine ⟨h, ?_⟩
    intro content
    simp [read, h]

/-! ## One pass of the loop -/

/-- The loop body spelled out on the three results of `read`. -/
theorem cycle_unfold {σ D : Type} [DecidableEq D] (H : List Byte → D) (decoder : Decoder σ)
    (onChange : Error → σ → σ) (fp : Except GoError (List Byte)) (s : Session σ) :
    cycle H decoder onChange fp s =
      if (read H decoder fp s).1 || (read H decoder fp s).2.1.isSome then
        if (read H decoder fp s).2.2.once then
          { (read H decoder fp s).2.2 with
            user := onChange (read H decoder fp s).2.1 (read H decoder fp s).2.2.user
            trace := (read H decoder fp s).2.2.trace ++
              [Action.onChangeCall (read H decoder fp s).2.1] }
        else
          { (read H decoder fp s).2.2 with
            once := true
            user := onChange (read H decoder fp s).2.1 (read H decoder fp s).2.2.user
            trace := (read H decoder fp s).2.2.trace ++
              [Action.onChangeCall (read H decoder fp s).2.1] ++
              [Action.readySend (read H decoder fp s).2.1] }
      else (read H decoder fp s).2.2 := by
  simp only [cycle]

theorem read_once {σ D : Type} [DecidableEq D] (H : List Byte → D) (decoder : Decoder σ)
    (fp : Except GoError (List Byte)) (s : Session σ) :
    (read H decoder fp s).2.2.once = s.once := by
  cases fp <;> rfl

theorem read_trace {σ D : Type} [DecidableEq D] (H : List Byte → D) (decoder : Decoder σ)
    (fp : Except GoError (List Byte)) (s : Session σ) :
    ∃ rest, (read H decoder fp s).2.2.trace = s.trace ++ rest ∧
      readySends rest = 0 ∧ onChangeCalls rest = 0 := by
  cases fp with
  | error e => exact ⟨[Action.readCall], rfl, rfl, rfl⟩
  | ok content => exact ⟨[Action.readCall, Action.decoderCall _ _], rfl, rfl, rfl⟩

/-- A first read (no digest stored) always reports: changed or an error. -/
theorem read_first_reports {σ D : Type} [DecidableEq D] (H : List Byte → D)
    (decoder : Decoder σ) (fp : Except GoError (List Byte)) (s : Session σ)
    (h : s.cfg.hash = none) :
    ((read H decoder fp s).1 || (read H decoder fp s).2.1.isSome) = true := by
  cases fp with
  | error e => simp [read, Wrap]
  | ok content => simp [read, h]

/-- Once the `sync.Once` has fired, a pass sends nothing on `ready`. -/
theorem cycle_after_once {σ D : Type} [DecidableEq D] (H : List Byte → D)
    (decoder : Decoder σ) (onChange : Error → σ → σ) (fp : Except GoError (List Byte))
    (s : Session σ) (h : s.once = true) :
    (cycle H decoder onChange fp s).once = true ∧
    ∃ rest, (cycle H decoder onChange fp s).trace = s.trace ++ rest ∧ readySends rest = 0 := by
  obtain ⟨rest, hr, hr0, _⟩ := read_trace H decoder fp s
  have ho := read_once H decoder fp s
  rw [cycle_unfold]
  split_ifs with h1 h2
  · refine ⟨h2, rest ++ [Action.onChangeCall (read H decoder fp s).2.1], ?_, ?_⟩
    · simp [hr]
    · simp [readySends_append, hr0, readySends]
  · rw [ho, h] at h2; exact absurd rfl h2
  · exact ⟨by rw [ho, h], rest, hr, hr0⟩

/-- The first pass of a fresh goroutine calls `onChange` once and then sends
the same error on `ready`. -/
theorem cycle_first {σ D : Type} [DecidableEq D] (H : List Byte → D)
    (decoder : Decoder σ) (onChange : Error → σ → σ) (fp : Except GoError (List Byte))
    (s : Session σ) (h : s.cfg.hash = none) (ho : s.once = false) :
    (cycle H decoder onChange fp s).once = true ∧
    (cycle H decoder onChange fp s).trace =
      (read H decoder fp s).2.2.trace ++
        [Action.onChangeCall (read H decoder fp s).2.1,
         Action.readySend (read H decoder fp s).2.1] := by
  have h1 := read_first_reports H decoder fp s h
  have h2 := read_once H decoder fp s
  rw [cycle_unfold, if_pos h1, h2, ho]
  simp

/-- A pass over an opened file that reports: the decoder runs, then `onChange`
gets its error, then (the first time only) the error is sent on `ready`. -/
theorem cycle_ok_reports {σ D : Type} [DecidableEq D] (H : List Byte → D)
    (decoder : Decoder σ) (onChange : Error → σ → σ) (content : List Byte) (s : Session σ)
    (h : ((read H decoder (Except.ok content) s).1 ||
          (decoder.run content).err.isSome) = true) :
    (cycle H decoder onChange (Except.ok content) s).trace =
        s.trace ++ [Action.readCall,
            Action.decoderCall (decoder.run content).bytes (decoder.run content).err,
            Action.onChangeCall (decoder.run content).err] ++
          (if s.once then [] else [Action.readySend (decoder.run content).err]) ∧
    (cycle H decoder onChange (Except.ok content) s).once = true ∧
    (cycle H decoder onChange (Except.ok content) s).cfg.hash =
        some (decoder.run content).bytes ∧
    (cycle H decoder onChange (Except.ok content) s).user =
        onChange (decoder.run content).err ((decoder.run content).upd s.user) := by
  have h1 : ((read H decoder (Except.ok content) s).1 ||
      (read H decoder (Except.ok content) s).2.1.isSome) = true := h
  rw [cycle_unfold, if_pos h1]
  cases ho : s.once <;> simp [read, ho]

/-- A pass over an opened file that does not report: only the decoder runs. -/
theorem cycle_ok_silent {σ D : Type} [DecidableEq D] (H : List Byte → D)
    (decoder : Decoder σ) (onChange : Error → σ → σ) (content : List Byte) (s : Session σ)
    (h : ((read H decoder (Except.ok content) s).1 ||
          (decoder.run content).err.isSome) = false) :
    (cycle H decoder onChange (Except.ok content) s).trace =
        s.trace ++ [Action.readCall,
            Action.decoderCall (decoder.run content).bytes (decoder.run content).err] ∧
    (cycle H decoder onChange (Except.ok content) s).once = s.once ∧
    (cycle H decoder onChange (Except.ok content) s).cfg.hash =
        some (decoder.run content).bytes := by
  have h1 : ¬ ((read H decoder (Except.ok content) s).1 ||
      (read H decoder (Except.ok content) s).2.1.isSome) = true := by
    intro h2
    have h3 : ((read H decoder (Except.ok content) s).1 ||
      (decoder.run content).err.isSome) = true := h2
    rw [h] at h3
    exact Bool.false_ne_true h3
  rw [cycle_unfold, if_neg h1]
  exact ⟨rfl, rfl, rfl⟩

/-- After any pass over an opened file the stored digest is that of the bytes read. -/
theorem cycle_ok_hash {σ D : Type} [DecidableEq D] (H : List Byte → D)
    (decoder : Decoder σ) (onChange : Error → σ → σ) (content : List Byte) (s : Session σ) :
    (cycle H decoder onChange (Except.ok content) s).cfg.hash =
      some (decoder.run content).bytes := by
  cases h : ((read H decoder (Except.ok content) s).1 || (decoder.run content).err.isSome)
  · exact (cycle_ok_silent H decoder onChange content s h).2.2
  · exact (cycle_ok_reports H decoder onChange content s h).2.2.1

/-- C3, as stated, fails: a second pass over the same rejected bytes reads
unchanged, yet `onChange` is called a second time. -/
theorem repeated_invalid_reported_again :
    (read idHash rejecting (Except.ok [123, 33]) invalidOnce).1 = false ∧
    (rejecting.run [123, 33]).err = some (GoError.msg "invalid character") ∧
    onChangeCalls invalidOnce.trace = 1 ∧
    onChangeCalls invalidTwice.trace = 2 ∧
    invalidTwice.trace = invalidOnce.trace ++
      [Action.readCall,
       Action.decoderCall [123, 33] (some (GoError.msg "invalid character")),
       Action.onChangeCall (some (GoError.msg "invalid character"))] := by
  refine ⟨by rfl, by rfl, by rfl, by rfl, by rfl⟩

/-- C3, amended: when two passes in a row read the same bytes and the decoder
fails on both, `onChange` is called for the first, the second read returns
changed = false with the decoder's error, and `onChange` is called once more
with that error, nothing being sent on `ready` the second time. -/
theorem repeated_invalid_content {σ D : Type} [DecidableEq D] (H : List Byte → D)
    (decoder : Decoder σ) (onChange : Error → σ → σ) (c1 c2 : List Byte)
    (s s1 s2 : Session σ)
    (hs1 : s1 = cycle H decoder onChange (Except.ok c1) s)
    (hs2 : s2 = cycle H decoder onChange (Except.ok c2) s1)
    (hsame : (decoder.run c2).bytes = (decoder.run c1).bytes)
    (hbad1 : (decoder.run c1).err ≠ none) (hbad2 : (decoder.run c2).err ≠ none) :
    onChangeCalls s1.trace = onChangeCalls s.trace + 1 ∧
    (read H decoder (Except.ok c2) s1).1 = false ∧
    (read H decoder (Except.ok c2) s1).2.1 = (decoder.run c2).err ∧
    s2.trace = s1.trace ++
      [Action.readCall,
       Action.decoderCall (decoder.run c2).bytes (decoder.run c2).err,
       Action.onChangeCall (decoder.run c2).err] ∧
    onChangeCalls s2.trace = onChangeCalls s1.trace + 1 := by
  have e1 : (decoder.run c1).err.isSome = true := by
    cases h : (decoder.run c1).err with
    | none => exact absurd h hbad1
    | some e => rfl
  have e2 : (decoder.run c2).err.isSome = true := by
    cases h : (decoder.run c2).err with
    | none => exact absurd h hbad2
    | some e => rfl
  obtain ⟨t1, o1, g1, _⟩ :=
    cycle_ok_reports H decoder onChange c1 s (by rw [e1, Bool.or_true])
  obtain ⟨t2, _, _, _⟩ :=
    cycle_ok_reports H decoder onChange c2 s1 (by rw [e2, Bool.or_true])
  rw [← hs1] at t1 o1 g1
  rw [← hs2] at t2
  have t2clean : s2.trace = s1.trace ++
      [Action.readCall,
       Action.decoderCall (decoder.run c2).bytes (decoder.run c2).err,
       Action.onChangeCall (decoder.run c2).err] := by
    rw [t2, o1]; simp
  refine ⟨?_, ?_, rfl, t2clean, ?_⟩
  · rw [t1]
    cases s.once <;> simp [onChangeCalls_append, onChangeCalls]
  · simp [read, g1, hsame]
  · rw [t2clean]
    simp [onChangeCalls_append, onChangeCalls]

theorem repeated_invalid_content_witness :
    onChangeCalls invalidOnce.trace = onChangeCalls (start "config.json" ()).trace + 1 ∧
    (read idHash rejecting (Except.ok [123, 33]) invalidOnce).1 = false ∧
    (read idHash rejecting (Except.ok [123, 33]) invalidOnce).2.1 =
      (rejecting.run [123, 33]).err ∧
    invalidTwice.trace = invalidOnce.trace ++
      [Action.readCall,
       Action.decoderCall (rejecting.run [123, 33]).bytes (rejecting.run [123, 33]).err,
       Action.onChangeCall (rejecting.run [123, 33]).err] ∧
    onChangeCalls invalidTwice.trace = onChangeCalls invalidOnce.trace + 1 :=
  repeated_invalid_content idHash rejecting ignore [123, 33] [123, 33]
    (start "config.json" ()) invalidOnce invalidTwice rfl rfl rfl (by decide) (by decide)

/-- C6: when the previous pass read bytes B and the next pass opens the file,
reads the same bytes B and the decoder returns nil, then the read returns
changed = false with a nil error and `onChange` is not called: the pass only
adds the read and the decoder call to the trace. -/
theorem identical_content_silent {σ D : Type} [DecidableEq D] (H : List Byte → D)
    (decoder : Decoder σ) (onChange : Error → σ → σ) (c1 c2 : List Byte)
    (s s1 s2 : Session σ)
    (hs1 : s1 = cycle H decoder onChange (Except.ok c1) s)
    (hs2 : s2 = cycle H decoder onChange (Except.ok c2) s1)
    (hsame : (decoder.run c2).bytes = (decoder.run c1).bytes)
    (hok : (decoder.run c2).err = none) :
    (read H decoder (Except.ok c2) s1).1 = false ∧
    (read H decoder (Except.ok c2) s1).2.1 = none ∧
    s2.trace = s1.trace ++
      [Action.readCall, Action.decoderCall (decoder.run c2).bytes none] ∧
    onChangeCalls s2.trace = onChangeCalls s1.trace ∧
    s2.user = (decoder.run c2).upd s1.user := by
  have g1 : s1.cfg.hash = some (decoder.run c1).bytes := by
    rw [hs1]; exact cycle_ok_hash H decoder onChange c1 s
  have hch : (read H decoder (Except.ok c2) s1).1 = false := by
    simp [read, g1, hsame]
  have hsil : ((read H decoder (Except.ok c2) s1).1 ||
      (decoder.run c2).err.isSome) = false := by
    rw [hch, hok]; rfl
  obtain ⟨t2, _, _⟩ := cycle_ok_silent H decoder onChange c2 s1 hsil
  rw [← hs2, hok] at t2
  refine ⟨hch, hok, t2, ?_, ?_⟩
  · rw [t2]; simp [onChangeCalls_append, onChangeCalls]
  · have h1 : ¬ ((read H decoder (Except.ok c2) s1).1 ||
        (read H decoder (Except.ok c2) s1).2.1.isSome) = true := by
      intro h2
      have h3 : ((read H decoder (Except.ok c2) s1).1 ||
        (decoder.run c2).err.isSome) = true := h2
      rw [hsil] at h3
      exact Bool.false_ne_true h3
    rw [hs2, cycle_unfold, if_neg h1]
    rfl

theorem identical_content_silent_witness :
    (usersDecoder.run twoUsers).bytes = twoUsers ∧
    (usersDecoder.run twoUsers).err = none ∧
    (read idHash usersDecoder (Except.ok twoUsers) usersLoaded).1 = false ∧
    onChangeCalls
      (cycle idHash usersDecoder ignore (Except.ok twoUsers) usersLoaded).trace =
        onChangeCalls usersLoaded.trace ∧
    onChangeCalls usersLoaded.trace = 1 :=
  ⟨by rfl, by rfl,
   (identical_content_silent idHash usersDecoder ignore twoUsers twoUsers
      (start "testcfg.json" []) usersLoaded
      (cycle idHash usersDecoder ignore (Except.ok twoUsers) usersLoaded)
      rfl rfl rfl (by rfl)).1,
   (identical_content_silent idHash usersDecoder ignore twoUsers twoUsers
      (start "testcfg.json" []) usersLoaded
      (cycle idHash usersDecoder ignore (Except.ok twoUsers) usersLoaded)
      rfl rfl rfl (by rfl)).2.2.2.1,
   by rfl⟩

/-- C7: when the previous pass read bytes A and the next pass reads bytes B
with a different digest and the decoder returns nil, the read returns
changed = true with a nil error and `onChange` is called exactly once, with
nil, after the decoder updated the caller's value (a send on `ready` follows
only if none was made before); and the very first pass over a file the decoder
accepts calls the decoder, then `onChange` with nil, then sends nil on `ready`. -/
theorem changed_content_reported {σ D : Type} [DecidableEq D] (H : List Byte → D)
    (decoder : Decoder σ) (onChange : Error → σ → σ) (c1 c2 : List Byte)
    (s s1 s2 : Session σ)
    (hs1 : s1 = cycle H decoder onChange (Except.ok c1) s)
    (hs2 : s2 = cycle H decoder onChange (Except.ok c2) s1)
    (hdiff : H (decoder.run c2).bytes ≠ H (decoder.run c1).bytes)
    (hok : (decoder.run c2).err = none) :
    (read H decoder (Except.ok c2) s1).1 = true ∧
    (read H decoder (Except.ok c2) s1).2.1 = none ∧
    s2.trace = s1.trace ++
        [Action.readCall, Action.decoderCall (decoder.run c2).bytes none,
         Action.onChangeCall none] ++
        (if s1.once then [] else [Action.readySend none]) ∧
    onChangeCalls s2.trace = onChangeCalls s1.trace + 1 ∧
    s2.user = onChange none ((decoder.run c2).upd s1.user) ∧
    (∀ (name : String) (user : σ) (c : List Byte), (decoder.run c).err = none →
      (cycle H decoder onChange (Except.ok c) (start name user)).trace =
        [Action.readCall, Action.decoderCall (decoder.run c).bytes none,
         Action.onChangeCall none, Action.readySend none] ∧
      (cycle H decoder onChange (Except.ok c) (start name user)).user =
        onChange none ((decoder.run c).upd user)) := by
  have g1 : s1.cfg.hash = some (decoder.run c1).bytes := by
    rw [hs1]; exact cycle_ok_hash H decoder onChange c1 s
  have hch : (read H decoder (Except.ok c2) s1).1 = true := by
    simp only [read, g1]
    simpa using fun h => hdiff h.symm
  obtain ⟨t2, _, _, u2⟩ :=
    cycle_ok_reports H decoder onChange c2 s1 (by rw [hch, Bool.true_or])
  rw [← hs2, hok] at t2 u2
  refine ⟨hch, hok, t2, ?_, u2, ?_⟩
  · rw [t2]
    cases s1.once <;> simp [onChangeCalls_append, onChangeCalls]
  · intro name user c hc
    obtain ⟨t, _, _, u⟩ := cycle_ok_reports H decoder onChange c (start name user)
      (by simp [read, start])
    rw [hc] at t u
    exact ⟨by simpa [start] using t, by simpa [start] using u⟩

theorem changed_content_reported_witness :
    (idHash (usersDecoder.run threeUsers).bytes ≠ idHash (usersDecoder.run twoUsers).bytes ∧
     (usersDecoder.run threeUsers).err = none) ∧
    usersLoaded.user = [[97], [98]] ∧
    usersLoaded.trace =
      [Action.readCall, Action.decoderCall twoUsers none,
       Action.onChangeCall none, Action.readySend none] ∧
    usersReloaded.user = [[97], [98], [99]] ∧
    (read idHash usersDecoder (Except.ok threeUsers) usersLoaded).1 = true ∧
    onChangeCalls usersReloaded.trace = onChangeCalls usersLoaded.trace + 1 :=
  ⟨⟨by decide, by rfl⟩, by rfl, by rfl, by rfl,
   (changed_content_reported idHash usersDecoder ignore twoUsers threeUsers
      (start "testcfg.json" []) usersLoaded usersReloaded rfl rfl
      (by decide) (by rfl)).1,
   (changed_content_reported idHash usersDecoder ignore twoUsers threeUsers
      (start "testcfg.json" []) usersLoaded usersReloaded rfl rfl
      (by decide) (by rfl)).2.2.2.1⟩

/-! ## `New` and `Close` -/

theorem read_cfg_stop {σ D : Type} [DecidableEq D] (H : List Byte → D) (decoder : Decoder σ)
    (fp : Except GoError (List Byte)) (s : Session σ) :
    (read H decoder fp s).2.2.cfg.stop = s.cfg.stop ∧
    (read H decoder fp s).2.2.cfg.watcher = s.cfg.watcher := by
  cases fp <;> exact ⟨rfl, rfl⟩

/-- A pass of the loop touches neither `stop` nor the watcher. -/
theorem cycle_cfg {σ D : Type} [DecidableEq D] (H : List Byte → D) (decoder : Decoder σ)
    (onChange : Error → σ → σ) (fp : Except GoError (List Byte)) (s : Session σ) :
    (cycle H decoder onChange fp s).cfg.stop = s.cfg.stop ∧
    (cycle H decoder onChange fp s).cfg.watcher = s.cfg.watcher := by
  have h := read_cfg_stop H decoder fp s
  rw [cycle_unfold]
  split_ifs <;> exact h

/-- After a successful setup `New` returns, with the state its goroutine
reached at the end of the first pass and the error of that pass. -/
theorem New_setup_ok {σ D : Type} [DecidableEq D] (H : List Byte → D) (name : String)
    (fp : Except GoError (List Byte)) (decoder : Decoder σ) (onChange : Error → σ → σ)
    (user : σ) :
    New H name { newWatcher := none, add := none } fp decoder onChange user =
      some { res := (cycle H decoder onChange fp (start name user)).cfg
             err := (read H decoder fp (start name user)).2.1
             state := cycle H decoder onChange fp (start name user) } := by
  have h := (cycle_first H decoder onChange fp (start name user) rfl rfl).2
  obtain ⟨rest, hr, hr0, _⟩ := read_trace H decoder fp (start name user)
  have hf : ∀ (t : List Action) (e : Error), readySends t = 0 →
      firstReady (t ++ [Action.onChangeCall e, Action.readySend e]) = some e := by
    intro t e
    induction t with
    | nil => intro _; rfl
    | cons x t ih =>
      intro hx
      cases x <;> simp [readySends] at hx <;> simpa [firstReady] using ih hx
  have hfr : firstReady (cycle H decoder onChange fp (start name user)).trace =
      some (read H decoder fp (start name user)).2.1 := by
    rw [h, hr]
    apply hf
    simpa [start, readySends_append, readySends] using hr0
  simp only [New, hfr]

/-- The session `New` hands back always has an open `stop` channel. -/
theorem New_stop_active {σ D : Type} [DecidableEq D] (H : List Byte → D) (name : String)
    (env : Setup) (fp : Except GoError (List Byte)) (decoder : Decoder σ)
    (onChange : Error → σ → σ) (user : σ) (r : NewResult σ)
    (h : New H name env fp decoder onChange user = some r) : r.res.stop = Chan.active := by
  obtain ⟨nw, ad⟩ := env
  cases nw with
  | some e =>
    simp only [New, Option.some.injEq] at h
    rw [← h]; rfl
  | none =>
    cases ad with
    | some e =>
      simp only [New, Option.some.injEq] at h
      rw [← h]; rfl
    | none =>
      rw [New_setup_ok, Option.some.injEq] at h
      rw [← h]
      exact (cycle_cfg H decoder onChange fp (start name user)).1

theorem closeN_closed (n : Nat) (cfg : Config) (h : cfg.stop = Chan.closed) :
    closeN (n + 1) cfg = Except.error Panic.closeOfClosedChannel := by
  simp [closeN, Config.Close, closeChan, h]

/-- C1, as stated, fails: the second `Close` on a session returned by `New`
panics with "close of closed channel". -/
theorem close_twice_panics :
    (New idHash "testcfg.json" { newWatcher := none, add := none } (Except.ok twoUsers)
        usersDecoder ignore []).map (fun r => closeN 2 r.res) =
      some (Except.error Panic.closeOfClosedChannel) := by
  rfl

/-- C1, amended: on every session returned by `New` the first `Close` does not
panic and closes the `stop` channel, which was open until then, and that is
the only signal: every later call panics, so calling `Close` n >= 2 times in a
row ends in the panic "close of closed channel". -/
theorem close_once_then_panics {σ D : Type} [DecidableEq D] (H : List Byte → D)
    (name : String) (env : Setup) (fp : Except GoError (List Byte)) (decoder : Decoder σ)
    (onChange : Error → σ → σ) (user : σ) (r : NewResult σ)
    (h : New H name env fp decoder onChange user = some r) :
    r.res.stop = Chan.active ∧
    r.res.Close = Except.ok { r.res with stop := Chan.closed } ∧
    closeN 1 r.res = Except.ok { r.res with stop := Chan.closed } ∧
    ∀ n : Nat, 2 ≤ n → closeN n r.res = Except.error Panic.closeOfClosedChannel := by
  have hs := New_stop_active H name env fp decoder onChange user r h
  have hc : r.res.Close = Except.ok { r.res with stop := Chan.closed } := by
    simp [Config.Close, closeChan, hs]
  refine ⟨hs, hc, ?_, ?_⟩
  · simp [closeN, hc]
  · intro n hn
    obtain ⟨m, rfl⟩ : ∃ m, n = m + 2 := ⟨n - 2, by omega⟩
    rw [closeN, hc]
    exact closeN_closed m _ rfl

theorem close_once_then_panics_witness :
    (∃ r, New idHash "testcfg.json" { newWatcher := none, add := none }
        (Except.ok twoUsers) usersDecoder ignore [] = some r ∧
      r.res.stop = Chan.active ∧
      r.res.Close = Except.ok { r.res with stop := Chan.closed } ∧
      closeN 1 r.res = Except.ok { r.res with stop := Chan.closed } ∧
      ∀ n : Nat, 2 ≤ n → closeN n r.res = Except.error Panic.closeOfClosedChannel) :=
  ⟨_, rfl, close_once_then_panics idHash "testcfg.json" { newWatcher := none, add := none }
    (Except.ok twoUsers) usersDecoder ignore [] _ rfl⟩

/-- C2, as stated, fails: with the watcher set up, an open error or a decoder
error of the first pass is what `New` returns. -/
theorem new_returns_first_error :
    (New idHash "config.json" { newWatcher := none, add := none }
        (Except.error (GoError.msg "permission denied")) usersDecoder ignore []).map
        (fun r => r.err) =
      some (some (GoError.wrap (GoError.msg "permission denied") "opening file")) ∧
    (New idHash "config.json" { newWatcher := none, add := none }
        (Except.ok [123, 33]) rejecting ignore ()).map (fun r => r.err) =
      some (some (GoError.msg "invalid character")) := by
  exact ⟨by rfl, by rfl⟩

/-- C2, amended: when the watcher is set up `New` returns the error of the
first pass, the very value that pass handed to `onChange`: nil exactly when
the file opened and the decoder returned nil, the wrapped open error or the
decoder's error otherwise; when creating the watcher or adding the path fails
`New` returns that error wrapped and nothing has run. -/
theorem new_error_is_first_cycle_error {σ D : Type} [DecidableEq D] (H : List Byte → D)
    (name : String) (fp : Except GoError (List Byte)) (decoder : Decoder σ)
    (onChange : Error → σ → σ) (user : σ) :
    (∃ r, New H name { newWatcher := none, add := none } fp decoder onChange user = some r ∧
      r.err = (read H decoder fp (start name user)).2.1 ∧
      r.state.trace = (read H decoder fp (start name user)).2.2.trace ++
        [Action.onChangeCall r.err, Action.readySend r.err] ∧
      (r.err = none ↔ ∃ content, fp = Except.ok content ∧ (decoder.run content).err = none) ∧
      (∀ e, fp = Except.error e → r.err = some (GoError.wrap e "opening file")) ∧
      (∀ content, fp = Except.ok content → r.err = (decoder.run content).err)) ∧
    (∀ (e : GoError) (add : Error),
      ∃ r, New H name { newWatcher := some e, add := add } fp decoder onChange user = some r ∧
        r.err = some (GoError.wrap e "creating fsnotify watcher") ∧ r.state.trace = []) ∧
    (∀ e : GoError,
      ∃ r, New H name { newWatcher := none, add := some e } fp decoder onChange user = some r ∧
        r.err = some (GoError.wrap e "adding filename to watcher") ∧ r.state.trace = []) := by
  refine ⟨⟨_, New_setup_ok H name fp decoder onChange user, rfl,
      (cycle_first H decoder onChange fp (start name user) rfl rfl).2, ?_, ?_, ?_⟩,
    fun e add => ⟨_, rfl, rfl, rfl⟩, fun e => ⟨_, rfl, rfl, rfl⟩⟩
  · cases fp with
    | error e => simp [read, Wrap]
    | ok content => simp [read]
  · intro e he; rw [he]; rfl
  · intro content hc; rw [hc]; rfl

/-- C5 fails on the code: `New` returns without having called the decoder, and
without any callback at all when the path cannot be added to the watcher. -/
theorem new_returns_without_callbacks :
    (New idHash "missing.json"
        { newWatcher := none, add := some (GoError.msg "no such file or directory") }
        (Except.error (GoError.msg "no such file or directory")) usersDecoder ignore []).map
        (fun r => (r.err, r.state.trace, r.state.user)) =
      some (some (GoError.wrap (GoError.msg "no such file or directory")
              "adding filename to watcher"), [], []) ∧
    (New idHash "config.json" { newWatcher := none, add := none }
        (Except.error (GoError.msg "permission denied")) usersDecoder ignore []).map
        (fun r => (decoderCalls r.state.trace, onChangeCalls r.state.trace, r.state.user)) =
      some (0, 1, []) := by
  exact ⟨by rfl, by rfl⟩

/-! ## The loop -/

/-- One turn of the loop after a pass that left the `sync.Once` fired, given
that the rest of the loop sends nothing on `ready`. -/
theorem loop_step_no_ready {σ D : Type} [DecidableEq D] (H : List Byte → D)
    (decoder : Decoder σ) (onChange : Error → σ → σ) (rs : List Round)
    (hP : ∀ s : Session σ, s.once = true →
      ∃ rest, (loop H decoder onChange rs s).trace = s.trace ++ rest ∧ readySends rest = 0)
    (r : Round) (s : Session σ) (h : (cycle H decoder onChange r.fp s).once = true) :
    ∃ rest, (loop H decoder onChange (r :: rs) s).trace =
        (cycle H decoder onChange r.fp s).trace ++ rest ∧ readySends rest = 0 := by
  have key : ∀ (s2 : Session σ) (a : Action), s2.once = true →
      s2.trace = (cycle H decoder onChange r.fp s).trace ++ [a] → readySends [a] = 0 →
      ∃ rest, (loop H decoder onChange rs s2).trace =
        (cycle H decoder onChange r.fp s).trace ++ rest ∧ readySends rest = 0 := by
    intro s2 a ho ht ha
    obtain ⟨rest, h1, h2⟩ := hP s2 ho
    refine ⟨[a] ++ rest, ?_, ?_⟩
    · rw [h1, ht, List.append_assoc]
    · rw [readySends_append, ha, h2]
  rw [loop]
  split
  · exact ⟨[Action.panic _], rfl, rfl⟩
  · split
    · exact ⟨[Action.panic Panic.nilDereference], rfl, rfl⟩
    · dsimp only
      split
      · exact ⟨[Action.watcherClose], rfl, rfl⟩
      · exact key _ Action.sleep h rfl rfl
      · exact key _ Action.timeout h rfl rfl

/-- Once the `sync.Once` has fired the loop never sends on `ready` again. -/
theorem loop_after_once {σ D : Type} [DecidableEq D] (H : List Byte → D)
    (decoder : Decoder σ) (onChange : Error → σ → σ) (rs : List Round) :
    ∀ s : Session σ, s.once = true →
      ∃ rest, (loop H decoder onChange rs s).trace = s.trace ++ rest ∧ readySends rest = 0 := by
  induction rs with
  | nil => intro s _; exact ⟨[], by simp [loop], rfl⟩
  | cons r rs ih =>
    intro s hs
    obtain ⟨ho, rest1, t1, n1⟩ := cycle_after_once H decoder onChange r.fp s hs
    obtain ⟨rest2, t2, n2⟩ := loop_step_no_ready H decoder onChange rs ih r s ho
    refine ⟨rest1 ++ rest2, ?_, ?_⟩
    · rw [t2, t1, List.append_assoc]
    · rw [readySends_append, n1, n2]

/-- C4: when the watcher is set up `New` returns, and at that moment the trace
is the first read followed by one `onChange` call and then the one send on
`ready`, both carrying the error `New` returns: `onChange` has been called
exactly once and `ready` was sent right after it; and however the loop goes on,
its trace extends that one without another send on `ready`. -/
theorem new_onChange_once_then_ready {σ D : Type} [DecidableEq D] (H : List Byte → D)
    (name : String) (fp : Except GoError (List Byte)) (decoder : Decoder σ)
    (onChange : Error → σ → σ) (user : σ) :
    ∃ r before,
      New H name { newWatcher := none, add := none } fp decoder onChange user = some r ∧
      r.state.trace = before ++ [Action.onChangeCall r.err, Action.readySend r.err] ∧
      onChangeCalls before = 0 ∧ readySends before = 0 ∧
      onChangeCalls r.state.trace = 1 ∧ readySends r.state.trace = 1 ∧
      ∀ (arrivals : Nat) (close preferStop : Bool) (rounds : List Round),
        ∃ rest,
          (loop H decoder onChange
            ({ fp := fp, arrivals := arrivals, close := close, preferStop := preferStop }
              :: rounds) (start name user)).trace = r.state.trace ++ rest ∧
          readySends rest = 0 ∧
          readySends (loop H decoder onChange
            ({ fp := fp, arrivals := arrivals, close := close, preferStop := preferStop }
              :: rounds) (start name user)).trace = 1 := by
  obtain ⟨ho, ht⟩ := cycle_first H decoder onChange fp (start name user) rfl rfl
  obtain ⟨rest, hr, hr0, hc0⟩ := read_trace H decoder fp (start name user)
  have hb1 : onChangeCalls (read H decoder fp (start name user)).2.2.trace = 0 := by
    rw [hr]; simpa [start, onChangeCalls_append, onChangeCalls] using hc0
  have hb2 : readySends (read H decoder fp (start name user)).2.2.trace = 0 := by
    rw [hr]; simpa [start, readySends_append, readySends] using hr0
  have h1 : readySends (cycle H decoder onChange fp (start name user)).trace = 1 := by
    rw [ht, readySends_append, hb2]; rfl
  refine ⟨_, (read H decoder fp (start name user)).2.2.trace,
    New_setup_ok H name fp decoder onChange user, ht, hb1, hb2, ?_, h1, ?_⟩
  · show onChangeCalls (cycle H decoder onChange fp (start name user)).trace = 1
    rw [ht, onChangeCalls_append, hb1]; rfl
  · intro arrivals close preferStop rounds
    obtain ⟨rest2, t2, n2⟩ := loop_step_no_ready H decoder onChange rounds
      (loop_after_once H decoder onChange rounds)
      { fp := fp, arrivals := arrivals, close := close, preferStop := preferStop }
      (start name user) ho
    refine ⟨rest2, t2, n2, ?_⟩
    rw [t2, readySends_append, n2]
    exact h1

theorem reloadCycles_append (a b : List Action) :
    reloadCycles (a ++ b) = reloadCycles a + reloadCycles b := by
  induction a with
  | nil => simp [reloadCycles]
  | cons x t ih =>
    cases x <;> simp [reloadCycles, ih]
    omega

theorem sleeps_append (a b : List Action) : sleeps (a ++ b) = sleeps a + sleeps b := by
  induction a with
  | nil => simp [sleeps]
  | cons x t ih =>
    cases x <;> simp [sleeps, ih]
    omega

theorem timeouts_append (a b : List Action) :
    timeouts (a ++ b) = timeouts a + timeouts b := by
  induction a with
  | nil => simp [timeouts]
  | cons x t ih =>
    cases x <;> simp [timeouts, ih]
    omega

/-- Every pass of the loop is one reload cycle, without sleep or timeout. -/
theorem cycle_counts {σ D : Type} [DecidableEq D] (H : List Byte → D) (decoder : Decoder σ)
    (onChange : Error → σ → σ) (fp : Except GoError (List Byte)) (s : Session σ) :
    reloadCycles (cycle H decoder onChange fp s).trace = reloadCycles s.trace + 1 ∧
    sleeps (cycle H decoder onChange fp s).trace = sleeps s.trace ∧
    timeouts (cycle H decoder onChange fp s).trace = timeouts s.trace := by
  rw [cycle_unfold]
  cases fp <;> split_ifs <;>
    simp [read, reloadCycles_append, sleeps_append, timeouts_append, reloadCycles, sleeps,
      timeouts]

/-- The `select` with `stop` open and an event waiting: the event is received,
the loop sleeps and goes round again with one event fewer. -/
theorem loop_event_step {σ D : Type} [DecidableEq D] (H : List Byte → D)
    (decoder : Decoder σ) (onChange : Error → σ → σ) (r : Round) (rs : List Round)
    (s : Session σ) (w : Watcher) (k : Nat)
    (hw : s.cfg.watcher = some w) (hstop : s.cfg.stop = Chan.active)
    (hclose : r.close = false) (hk : w.Events + r.arrivals = k + 1) :
    loop H decoder onChange (r :: rs) s =
      loop H decoder onChange rs
        { cycle H decoder onChange r.fp s with
          cfg := { (cycle H decoder onChange r.fp s).cfg with
                   watcher := some { Events := k, closed := w.closed } }
          trace := (cycle H decoder onChange r.fp s).trace ++ [Action.sleep] } := by
  obtain ⟨h1, h2⟩ := cycle_cfg H decoder onChange r.fp s
  rw [hstop] at h1
  rw [hw] at h2
  rw [loop]
  simp [hclose, h1, h2, hk, selectCase]

/-- The `select` with `stop` open and no event waiting: the timer fires. -/
theorem loop_timeout_step {σ D : Type} [DecidableEq D] (H : List Byte → D)
    (decoder : Decoder σ) (onChange : Error → σ → σ) (r : Round) (rs : List Round)
    (s : Session σ) (w : Watcher)
    (hw : s.cfg.watcher = some w) (hstop : s.cfg.stop = Chan.active)
    (hclose : r.close = false) (hk : w.Events + r.arrivals = 0) :
    loop H decoder onChange (r :: rs) s =
      loop H decoder onChange rs
        { cycle H decoder onChange r.fp s with
          cfg := { (cycle H decoder onChange r.fp s).cfg with
                   watcher := some { Events := 0, closed := w.closed } }
          trace := (cycle H decoder onChange r.fp s).trace ++ [Action.timeout] } := by
  obtain ⟨h1, h2⟩ := cycle_cfg H decoder onChange r.fp s
  rw [hstop] at h1
  rw [hw] at h2
  rw [loop]
  simp [hclose, h1, h2, hk, selectCase]

/-- With `stop` open and as many quiet rounds ahead as events waiting, the loop
receives the events one per turn and only then runs into the timer. -/
theorem loop_pending_events {σ D : Type} [DecidableEq D] (H : List Byte → D)
    (decoder : Decoder σ) (onChange : Error → σ → σ)
    (fps : List (Except GoError (List Byte))) :
    ∀ (r : Round) (s : Session σ) (w : Watcher),
      s.cfg.watcher = some w → s.cfg.stop = Chan.active → r.close = false →
      w.Events + r.arrivals = fps.length →
      reloadCycles (loop H decoder onChange (r :: fps.map quiet) s).trace =
          reloadCycles s.trace + 1 + fps.length ∧
      sleeps (loop H decoder onChange (r :: fps.map quiet) s).trace =
          sleeps s.trace + fps.length ∧
      timeouts (loop H decoder onChange (r :: fps.map quiet) s).trace =
          timeouts s.trace + 1 := by
  induction fps with
  | nil =>
    intro r s w hw hstop hclose hk
    obtain ⟨c1, c2, c3⟩ := cycle_counts H decoder onChange r.fp s
    rw [List.map_nil, loop_timeout_step H decoder onChange r [] s w hw hstop hclose hk, loop]
    simp [reloadCycles_append, sleeps_append, timeouts_append, reloadCycles, sleeps,
      timeouts, c1, c2, c3]
  | cons fp fps ih =>
    intro r s w hw hstop hclose hk
    obtain ⟨c1, c2, c3⟩ := cycle_counts H decoder onChange r.fp s
    obtain ⟨g1, _⟩ := cycle_cfg H decoder onChange r.fp s
    rw [List.map_cons,
      loop_event_step H decoder onChange r _ s w fps.length hw hstop hclose hk]
    obtain ⟨i1, i2, i3⟩ := ih (quiet fp)
      { cycle H decoder onChange r.fp s with
        cfg := { (cycle H decoder onChange r.fp s).cfg with
                 watcher := some { Events := fps.length, closed := w.closed } }
        trace := (cycle H decoder onChange r.fp s).trace ++ [Action.sleep] }
      { Events := fps.length, closed := w.closed } rfl (by rw [← hstop, ← g1]) rfl rfl
    rw [i1, i2, i3]
    simp [reloadCycles_append, sleeps_append, timeouts_append, reloadCycles, sleeps,
      timeouts, c1, c2, c3]
    omega

theorem turns_append (a b : List Action) : turns (a ++ b) = turns a ++ turns b := by
  induction a with
  | nil => simp [turns]
  | cons x t ih => cases x <;> simp [turns, ih]

/-- A pass of the loop is one reload cycle and nothing else that wakes or
delays the loop. -/
theorem cycle_turns {σ D : Type} [DecidableEq D] (H : List Byte → D) (decoder : Decoder σ)
    (onChange : Error → σ → σ) (fp : Except GoError (List Byte)) (s : Session σ) :
    ∃ rest, (cycle H decoder onChange fp s).trace = s.trace ++ rest ∧
      turns rest = [Action.readCall] := by
  have hr : ∃ rest, (read H decoder fp s).2.2.trace = s.trace ++ rest ∧
      turns rest = [Action.readCall] := by
    cases fp with
    | error e => exact ⟨[Action.readCall], rfl, rfl⟩
    | ok content => exact ⟨[Action.readCall, Action.decoderCall _ _], rfl, rfl⟩
  obtain ⟨rest, t, u⟩ := hr
  rw [cycle_unfold]
  split_ifs
  · refine ⟨rest ++ [Action.onChangeCall (read H decoder fp s).2.1], ?_, ?_⟩
    · simp [t]
    · rw [turns_append, u]; rfl
  · refine ⟨rest ++ [Action.onChangeCall (read H decoder fp s).2.1,
        Action.readySend (read H decoder fp s).2.1], ?_, ?_⟩
    · simp [t]
    · rw [turns_append, u]; rfl
  · exact ⟨rest, t, u⟩

/-- The order of the turns of `loop_pending_events`: the reload cycle of the
current pass, then a sleep and a reload cycle for each waiting event, then the
timer. -/
theorem loop_pending_order {σ D : Type} [DecidableEq D] (H : List Byte → D)
    (decoder : Decoder σ) (onChange : Error → σ → σ)
    (fps : List (Except GoError (List Byte))) :
    ∀ (r : Round) (s : Session σ) (w : Watcher),
      s.cfg.watcher = some w → s.cfg.stop = Chan.active → r.close = false →
      w.Events + r.arrivals = fps.length →
      ∃ rest, (loop H decoder onChange (r :: fps.map quiet) s).trace = s.trace ++ rest ∧
        turns rest = Action.readCall :: eventTurns fps.length := by
  induction fps with
  | nil =>
    intro r s w hw hstop hclose hk
    obtain ⟨rest0, t0, u0⟩ := cycle_turns H decoder onChange r.fp s
    rw [List.map_nil, loop_timeout_step H decoder onChange r [] s w hw hstop hclose hk, loop]
    refine ⟨rest0 ++ [Action.timeout], ?_, ?_⟩
    · show (cycle H decoder onChange r.fp s).trace ++ [Action.timeout] = _
      rw [t0, List.append_assoc]
    · rw [turns_append, u0]; rfl
  | cons fp fps ih =>
    intro r s w hw hstop hclose hk
    obtain ⟨rest0, t0, u0⟩ := cycle_turns H decoder onChange r.fp s
    obtain ⟨g1, _⟩ := cycle_cfg H decoder onChange r.fp s
    rw [List.map_cons,
      loop_event_step H decoder onChange r _ s w fps.length hw hstop hclose hk]
    obtain ⟨rest1, t1, u1⟩ := ih (quiet fp)
      { cycle H decoder onChange r.fp s with
        cfg := { (cycle H decoder onChange r.fp s).cfg with
                 watcher := some { Events := fps.length, closed := w.closed } }
        trace := (cycle H decoder onChange r.fp s).trace ++ [Action.sleep] }
      { Events := fps.length, closed := w.closed } rfl (by rw [← hstop, ← g1]) rfl rfl
    refine ⟨rest0 ++ [Action.sleep] ++ rest1, ?_, ?_⟩
    · rw [t1]
      show (cycle H decoder onChange r.fp s).trace ++ [Action.sleep] ++ rest1 = _
      rw [t0]
      simp
    · rw [turns_append, turns_append, u0, u1]
      rfl

/-- C8, as stated, fails: with two events waiting at the first `select` the
loop runs two more reload cycles, each after its own sleep, not one. -/
theorem two_events_two_reloads :
    reloadCycles twoEventsPending.trace = 1 + 2 ∧
    sleeps twoEventsPending.trace = 2 ∧
    ¬ (reloadCycles twoEventsPending.trace ≤ 1 + 1) ∧
    twoEventsPending.trace =
      [Action.readCall, Action.decoderCall twoUsers none, Action.onChangeCall none,
       Action.readySend none, Action.sleep,
       Action.readCall, Action.decoderCall twoUsers none, Action.sleep,
       Action.readCall, Action.decoderCall twoUsers none, Action.timeout] := by
  refine ⟨by rfl, by rfl, by decide, by rfl⟩

/-- C8, amended: the loop does not coalesce events.  With `stop` open, when N
notification events wait on the watcher's channel at the wait point and nothing
else arrives, the loop receives them one per turn: it sleeps one second and
runs one reload cycle for each, N further reload cycles and N sleeps in all,
and the thirty-second timer fires only after the last of them.  The order is
part of the statement: after the pass that reached the wait point the trace
goes on with a sleep and then a reload cycle, N times over, and only then the
timer. -/
theorem one_reload_per_event {σ D : Type} [DecidableEq D] (H : List Byte → D)
    (decoder : Decoder σ) (onChange : Error → σ → σ) (fp0 : Except GoError (List Byte))
    (preferStop : Bool) (fps : List (Except GoError (List Byte))) (N : Nat)
    (s : Session σ) (w : Watcher)
    (hw : s.cfg.watcher = some w) (hE : w.Events = 0) (hstop : s.cfg.stop = Chan.active)
    (hN : fps.length = N) :
    reloadCycles (loop H decoder onChange
        ({ fp := fp0, arrivals := N, close := false, preferStop := preferStop }
          :: fps.map quiet) s).trace = reloadCycles s.trace + 1 + N ∧
    sleeps (loop H decoder onChange
        ({ fp := fp0, arrivals := N, close := false, preferStop := preferStop }
          :: fps.map quiet) s).trace = sleeps s.trace + N ∧
    timeouts (loop H decoder onChange
        ({ fp := fp0, arrivals := N, close := false, preferStop := preferStop }
          :: fps.map quiet) s).trace = timeouts s.trace + 1 ∧
    ∃ rest,
      (loop H decoder onChange
        ({ fp := fp0, arrivals := N, close := false, preferStop := preferStop }
          :: fps.map quiet) s).trace = s.trace ++ rest ∧
      turns rest = Action.readCall :: eventTurns N := by
  subst hN
  have hk : w.Events + fps.length = fps.length := by rw [hE]; exact Nat.zero_add _
  obtain ⟨c1, c2, c3⟩ := loop_pending_events H decoder onChange fps
    { fp := fp0, arrivals := fps.length, close := false, preferStop := preferStop }
    s w hw hstop rfl hk
  exact ⟨c1, c2, c3, loop_pending_order H decoder onChange fps
    { fp := fp0, arrivals := fps.length, close := false, preferStop := preferStop }
    s w hw hstop rfl hk⟩

theorem one_reload_per_event_witness :
    reloadCycles twoEventsPending.trace =
      reloadCycles (start "testcfg.json" ([] : List (List Byte))).trace + 1 + 2 ∧
    sleeps twoEventsPending.trace =
      sleeps (start "testcfg.json" ([] : List (List Byte))).trace + 2 ∧
    timeouts twoEventsPending.trace =
      timeouts (start "testcfg.json" ([] : List (List Byte))).trace + 1 ∧
    ∃ rest,
      twoEventsPending.trace =
        (start "testcfg.json" ([] : List (List Byte))).trace ++ rest ∧
      turns rest = Action.readCall :: eventTurns 2 :=
  one_reload_per_event idHash usersDecoder ignore (Except.ok twoUsers) false
    [Except.ok twoUsers, Except.ok twoUsers] 2 (start "testcfg.json" [])
    { Events := 0, closed := false } rfl rfl rfl rfl

end config
